import Mathlib

/-!
Shallow embedding of the date-resolution and hierarchical task-extraction
core of the ai-file-analyzer repository:
  src/parsers/date_parser.py, src/parsers/task_parser.py,
  src/utils/task_analyzer.py.

Python strings are modelled as lists of characters (`Str`).  Python's
`datetime` objects are modelled by their proleptic-Gregorian ordinal day
number (as `date.toordinal`: 0001-01-01 is day 1); `datetime`'s bounded
range [0001-01-01, 9999-12-31] is kept, and operations that would raise
`OverflowError`/`ValueError` in Python are modelled with `Except Unit`.
String methods (`strip`, `split`, `splitlines`, `lower`, `title`) are
modelled for ASCII text with LF line separators, which covers the inputs
the program handles.
-/

abbrev Str := List Char

/-- Whitespace characters stripped by Python `str.strip()` (ASCII subset). -/
def pyWsChars : List Char := [' ', '\t', '\n', '\r', '\x0b', '\x0c']

def isPyWs (c : Char) : Bool := pyWsChars.contains c

/-- Python `str.lstrip()`. -/
def lstripWs (s : Str) : Str := s.dropWhile isPyWs

/-- Python `str.strip()`. -/
def strip (s : Str) : Str := ((lstripWs s).reverse.dropWhile isPyWs).reverse

/-- Python `str.lstrip(" \t")`, used by `get_indent_level`. -/
def lstripSpaceTab (s : Str) : Str := s.dropWhile (fun c => c == ' ' || c == '\t')

/-- Python `str.split(sep)` for a single-character separator:
splits at every occurrence, keeping empty pieces. -/
def splitOnChar (sep : Char) : Str → List Str
  | [] => [[]]
  | c :: rest =>
    match splitOnChar sep rest with
    | [] => if c == sep then [[], []] else [[c]]
    | h :: t => if c == sep then [] :: h :: t else (c :: h) :: t

/-- Python `str.splitlines()` for LF-separated text: a trailing newline
produces no trailing empty line, and the empty string has no lines. -/
def splitlines (s : Str) : List Str :=
  match s with
  | [] => []
  | _ =>
    let parts := splitOnChar '\n' s
    if parts.getLast? = some [] then parts.dropLast else parts

/-- Helper for `splitWs` (Python `str.split()` with no argument). -/
def splitWsAux : Str → Str → List Str
  | [], acc => if acc.isEmpty then [] else [acc.reverse]
  | c :: rest, acc =>
    if isPyWs c then
      if acc.isEmpty then splitWsAux rest [] else acc.reverse :: splitWsAux rest []
    else splitWsAux rest (c :: acc)

/-- Python `str.split()`: split on whitespace runs, discarding empties. -/
def splitWs (s : Str) : List Str := splitWsAux s []

/-- Python substring test `needle in hay`. -/
def isSubstrOf (needle : Str) : Str → Bool
  | [] => needle.isPrefixOf []
  | c :: t => needle.isPrefixOf (c :: t) || isSubstrOf needle t

/-- Python `str.lower()` (ASCII model). -/
def lowerStr (s : Str) : Str := s.map Char.toLower

/-- Helper for `titleStr`; the flag records whether the previous character
was alphabetic. -/
def titleAux : Bool → Str → Str
  | _, [] => []
  | prevAlpha, c :: rest =>
    (if c.isAlpha then (if prevAlpha then c.toLower else c.toUpper) else c)
      :: titleAux c.isAlpha rest

/-- Python `str.title()` (ASCII model): the first letter of every
alphabetic run is upper-cased, the rest lower-cased. -/
def titleStr (s : Str) : Str := titleAux false s

def allDigits (s : Str) : Bool := s.all Char.isDigit

def strToNat (s : Str) : Nat := s.foldl (fun a c => a * 10 + (c.toNat - 48)) 0

/-- Association-list lookup, modelling Python `dict` lookup / `in`. -/
def assocLookup {α : Type} (m : List (Str × α)) (k : Str) : Option α :=
  (m.find? (fun p => decide (p.1 = k))).map (·.2)

/-- Python `dict` assignment `m[k] = v`: replace the entry if the key is
present, else append it (insertion order preserved). -/
def dictInsert {α : Type} (m : List (Str × α)) (k : Str) (v : α) : List (Str × α) :=
  if (assocLookup m k).isSome then m.map (fun p => if p.1 = k then (p.1, v) else p)
  else m ++ [(k, v)]

instance {ε α : Type} [DecidableEq ε] [DecidableEq α] : DecidableEq (Except ε α)
  | .error e, .error f =>
    if h : e = f then .isTrue (by rw [h]) else .isFalse (by simp [h])
  | .error _, .ok _ => .isFalse (by simp)
  | .ok _, .error _ => .isFalse (by simp)
  | .ok a, .ok b =>
    if h : a = b then .isTrue (by rw [h]) else .isFalse (by simp [h])

/-! ## Calendar arithmetic (model of Python `datetime`) -/

def isLeap (y : Nat) : Bool := y % 4 == 0 && (y % 100 != 0 || y % 400 == 0)

def daysInMonth (y m : Nat) : Nat :=
  if m = 2 then (if isLeap y then 29 else 28)
  else if m = 4 || m = 6 || m = 9 || m = 11 then 30
  else 31

def daysBeforeMonth (y m : Nat) : Nat :=
  (List.range (m - 1)).foldl (fun a i => a + daysInMonth y (i + 1)) 0

/-- Days strictly before January 1 of year `y` in the proleptic Gregorian
calendar (so `daysBeforeYear 1 = 0`). -/
def daysBeforeYear (y : Nat) : Nat :=
  365 * (y - 1) + (y - 1) / 4 + (y - 1) / 400 - (y - 1) / 100

/-- Python `date(y, m, d).toordinal()`: 0001-01-01 is day 1. -/
def toOrdinal (y m d : Nat) : Nat := daysBeforeYear y + daysBeforeMonth y m + d

/-- Value of `date(9999, 12, 31).toordinal()`, the upper bound of Python's
`datetime` range. -/
def maxOrdinal : Nat := toOrdinal 9999 12 31

/-- Inverse of `toOrdinal` (era-based civil-from-days algorithm). -/
def fromOrdinal (n : Nat) : Nat × Nat × Nat :=
  let z := n + 305
  let era := z / 146097
  let doe := z % 146097
  let yoe := (doe - doe / 1460 + doe / 36524 - doe / 146096) / 365
  let y := yoe + era * 400
  let doy := doe - (365 * yoe + yoe / 4 - yoe / 100)
  let mp := (5 * doy + 2) / 153
  let d := doy - (153 * mp + 2) / 5 + 1
  let m := if mp < 10 then mp + 3 else mp - 9
  (if m ≤ 2 then y + 1 else y, m, d)

def padDigits (w n : Nat) : Str :=
  let ds := Nat.toDigits 10 n
  List.replicate (w - ds.length) '0' ++ ds

/-- Python `datetime.strftime("%m-%d-%Y")`. -/
def formatMDY (n : Nat) : Str :=
  let y := (fromOrdinal n).1
  let m := (fromOrdinal n).2.1
  let d := (fromOrdinal n).2.2
  padDigits 2 m ++ ['-'] ++ padDigits 2 d ++ ['-'] ++ padDigits 4 y

/-- Python `date.weekday()` (Monday = 0) of an ordinal day. -/
def pyWeekday (ord : Int) : Int := (ord + 6) % 7

/-- Model of `datetime` addition with a `timedelta` of `off` days: raises
`OverflowError` (modelled as `.error`) when the result leaves the
supported range. -/
def addDaysChecked (base off : Int) : Except Unit Int :=
  let r := base + off
  if 1 ≤ r ∧ r ≤ (maxOrdinal : Int) then .ok r else .error ()

/-! ## date_parser.py -/

/-- Strict parse of Python `datetime.strptime(s, "%m-%d-%Y")`: month and
day are 1–2 digit fields in range, the year is exactly four digits, the
whole string must match, and the civil date must exist.  Returns
`(year, month, day)`. -/
def parseMDY (s : Str) : Option (Nat × Nat × Nat) :=
  match splitOnChar '-' s with
  | [ms, ds, ys] =>
    if allDigits ms && 1 ≤ ms.length && ms.length ≤ 2
        && 1 ≤ strToNat ms && strToNat ms ≤ 12
        && allDigits ds && 1 ≤ ds.length && ds.length ≤ 2 && 1 ≤ strToNat ds
        && allDigits ys && ys.length == 4 && 1 ≤ strToNat ys
        && strToNat ds ≤ daysInMonth (strToNat ys) (strToNat ms)
    then some (strToNat ys, strToNat ms, strToNat ds) else none
  | _ => none

/-- Strict parse of Python `datetime.strptime(s, "%Y-%m-%d")`. -/
def parseYMD (s : Str) : Option (Nat × Nat × Nat) :=
  match splitOnChar '-' s with
  | [ys, ms, ds] =>
    if allDigits ys && ys.length == 4 && 1 ≤ strToNat ys
        && allDigits ms && 1 ≤ ms.length && ms.length ≤ 2
        && 1 ≤ strToNat ms && strToNat ms ≤ 12
        && allDigits ds && 1 ≤ ds.length && ds.length ≤ 2 && 1 ≤ strToNat ds
        && strToNat ds ≤ daysInMonth (strToNat ys) (strToNat ms)
    then some (strToNat ys, strToNat ms, strToNat ds) else none
  | _ => none

/-- Model of `date_parser.is_valid_date`: true when the string parses strictly in
either `%m-%d-%Y` or `%Y-%m-%d` format. -/
def is_valid_date (date_str : Str) : Bool :=
  (parseMDY date_str).isSome || (parseYMD date_str).isSome

/-- Model of `date_parser.get_base_date`: `datetime(year, 1, 1)` (which raises for
years outside 1..9999) advanced by `day_of_year - 1` days. -/
def get_base_date (year day_of_year : Nat) : Except Unit Int :=
  if 1 ≤ year ∧ year ≤ 9999 then
    addDaysChecked (toOrdinal year 1 1) ((day_of_year : Int) - 1)
  else .error ()

/-- Inner loop of `extract_date_from_tags`: scan the tokens of one line
for the first one starting with `#` (and longer than one character) whose
remainder is a valid date; the remainder is returned unmodified. -/
def find_tag_date (line : Str) : Option Str :=
  go (splitWs (strip line))
where
  go : List Str → Option Str
  | [] => none
  | t :: rest =>
    if (['#'].isPrefixOf t) && t.length > 1 && is_valid_date (t.drop 1)
    then some (t.drop 1) else go rest

/-- Line loop of `extract_date_from_tags`.  A line whose trimmed form is
`## Tags` always takes the first branch (`continue`), even when the tags
section is already open; the first other line seen with the section open
is scanned and then the loop breaks unconditionally. -/
def tagsLoop : List Str → Bool → Option Str
  | [], _ => none
  | l :: rest, inTags =>
    if strip l = "## Tags".toList then tagsLoop rest true
    else if inTags then find_tag_date l
    else tagsLoop rest false

/-- Model of `date_parser.extract_date_from_tags`. -/
def extract_date_from_tags (content : Str) : Option Str :=
  tagsLoop (splitlines content) false

/-- The `day_map` dictionary of `build_day_to_date_map` (Sunday = 0). -/
def day_map7 : List (Str × Nat) :=
  [("Sunday".toList, 0), ("Monday".toList, 1), ("Tuesday".toList, 2),
   ("Wednesday".toList, 3), ("Thursday".toList, 4), ("Friday".toList, 5),
   ("Saturday".toList, 6)]

/-- Heading scan of `build_day_to_date_map`: a raw line starting with
`### ` or `#### ` yields the title-cased first word of its stripped
remainder. -/
def heading_day_name (line : Str) : Option Str :=
  if ("### ".toList).isPrefixOf line || ("#### ".toList).isPrefixOf line then
    some (titleStr ((splitOnChar ' '
      (strip (if ("#### ".toList).isPrefixOf line then line.drop 4 else line.drop 3))).headD []))
  else none

/-- The `found_days` list of `build_day_to_date_map`: heading first words
that are weekday names, in order of appearance, duplicates kept. -/
def found_days (content : Str) : List Str :=
  ((splitlines content).filterMap heading_day_name).filter
    (fun d => (assocLookup day_map7 d).isSome)

/-- Per-day loop of `build_day_to_date_map`: for each found day compute
`base + (day_map[day] - base_template_day)` days and format it
`%m-%d-%Y`; a `datetime` overflow propagates as `.error`. -/
def buildMapLoop (base btd : Int) : List Str → List (Str × Str) → Except Unit (List (Str × Str))
  | [], acc => .ok acc
  | dn :: rest, acc =>
    match addDaysChecked base ((((assocLookup day_map7 dn).getD 0 : Nat) : Int) - btd) with
    | .error e => .error e
    | .ok o => buildMapLoop base btd rest (dictInsert acc dn (formatMDY o.toNat))

/-- Tail of `build_day_to_date_map` once the base date and base template
day are known. -/
def buildFromBase (base btd : Int) (content : Str) : Except Unit (List (Str × Str)) :=
  match found_days content with
  | [] => .ok []
  | fds => buildMapLoop base btd fds []

/-- Model of `date_parser.build_day_to_date_map`.  Structured mode (both `year`
and `day_of_year` present) computes the base from the day-of-year and
maps Python's Monday-0 weekday to the Sunday-0 template convention;
fallback mode parses the fallback strictly as `%m-%d-%Y` (a `ValueError`
is modelled as `.error`) and uses base template day 0; with neither (or a
falsy empty fallback) the result is the empty mapping. -/
def build_day_to_date_map (year day_of_year : Option Nat) (content : Str)
    (fallback_date : Option Str) : Except Unit (List (Str × Str)) :=
  match year, day_of_year with
  | some y, some doy =>
    match get_base_date y doy with
    | .error e => .error e
    | .ok b => buildFromBase b ((pyWeekday b + 1) % 7) content
  | _, _ =>
    match fallback_date with
    | none => .ok []
    | some f =>
      if f = [] then .ok []
      else
        match parseMDY f with
        | none => .error ()
        | some ymd => buildFromBase ((toOrdinal ymd.1 ymd.2.1 ymd.2.2 : Int)) 0 content

/-! ## task_parser.py and task_analyzer.py -/

/-- A checkbox task as built by `parse_task_line`: both fields are the
Python strings stored in the dict (`status` is `"completed"` or
`"not completed"`). -/
structure TaskDict where
  status : Str
  text : Str
deriving DecidableEq, Repr

/-- Model of `task_parser.parse_task_line`: recognizes lines starting `- [x]` or
`- [ ]`; the status comes from character 3 and the text is everything
after character 5, stripped. -/
def parse_task_line (line : Str) : Option TaskDict :=
  if ("- [x]".toList).isPrefixOf line || ("- [ ]".toList).isPrefixOf line then
    some { status := if line.getD 3 ' ' = 'x' then "completed".toList else "not completed".toList,
           text := strip (line.drop 5) }
  else none

/-- Model of `task_parser.get_indent_level`: number of leading spaces/tabs. -/
def get_indent_level (line : Str) : Nat :=
  line.length - (lstripSpaceTab line).length

/-- Per-date statistics dict created lazily by `process_task`. -/
structure DateStats where
  tasks_total : Nat
  tasks_completed : Nat
  workouts : List (Str × Str)
  habits : List (Str × List Str)
deriving DecidableEq, Repr

def emptyDateStats : DateStats := ⟨0, 0, [], []⟩

/-- The global statistics dict threaded through the scan. -/
structure GlobalStats where
  tasks_total : Nat
  tasks_completed : Nat
  tasks_by_date : List (Str × DateStats)
deriving DecidableEq, Repr

def freshStats : GlobalStats := ⟨0, 0, []⟩

/-- The hardcoded `habits_list` of `process_task`. -/
def habits_list : List Str :=
  ["study hebrew".toList, "massage scalp".toList, "red light mask".toList,
   "take out trash".toList, "check plants water".toList, "weekly planning".toList,
   "fantasy waivers".toList, "set fantasy line ups".toList]

/-- The habit branch body: create the key with an empty list when absent,
then append one `{status}` record. -/
def habitsAdd (m : List (Str × List Str)) (h : Str) (st : Str) : List (Str × List Str) :=
  if (assocLookup m h).isSome then m.map (fun p => if p.1 = h then (p.1, p.2 ++ [st]) else p)
  else m ++ [(h, [st])]

/-- The habit loop of `process_task` over an arbitrary phrase list. -/
def habitFold (lt st : Str) (l : List Str) (m : List (Str × List Str)) : List (Str × List Str) :=
  l.foldl (fun acc h => if isSubstrOf h lt then habitsAdd acc h st else acc) m

/-- The `if date not in stats["tasks_by_date"]` initialization of
`process_task`: lazily create the zeroed per-date entry. -/
def ensureDate (d : Str) (stats : GlobalStats) : GlobalStats :=
  if (assocLookup stats.tasks_by_date d).isSome then stats
  else { stats with tasks_by_date := stats.tasks_by_date ++ [(d, emptyDateStats)] }

/-- One when the leaf status is `"completed"`, else zero. -/
def completedInc (leaf : TaskDict) : Nat :=
  if leaf.status = "completed".toList then 1 else 0

/-- The workout-trigger test of `process_task` on the leaf's lower-cased
text. -/
def workoutTrigger (lt : Str) : Bool :=
  isSubstrOf "workout".toList lt || isSubstrOf "🏋️".toList lt

/-- The per-date-entry part of `process_task`, applied to the current
`DateStats` of the resolved date: counter increments, the workout branch
and the habit loop. -/
def updatedDateStats (task_stack : List TaskDict) (leaf : TaskDict) (ds : DateStats) : DateStats :=
  let lt := lowerStr leaf.text
  let st := leaf.status
  let ds2 : DateStats :=
    { ds with tasks_total := ds.tasks_total + 1,
              tasks_completed := ds.tasks_completed + completedInc leaf }
  let ds3 : DateStats :=
    if workoutTrigger lt then
      { ds2 with workouts := ds2.workouts ++
          (if task_stack.length > 1 then (task_stack.drop 1).map (fun t => (t.text, t.status))
           else [(lt, st)]) }
    else ds2
  { ds3 with habits := habitFold lt st habits_list ds3.habits }

/-- Model of `task_analyzer.process_task`.  A falsy date (`None` or the empty
string) is a no-op.  With an empty ancestor chain Python initializes the
date entry and then raises `IndexError` on `task_stack[-1]`; the value
returned here in that case is the statistics dict after that partial
mutation (see `process_task_raises`). -/
def process_task (task_stack : List TaskDict) (date : Option Str) (stats : GlobalStats) : GlobalStats :=
  match date with
  | none => stats
  | some d =>
    if d = [] then stats
    else
      let stats1 := ensureDate d stats
      match task_stack.getLast? with
      | none => stats1
      | some leaf =>
        let ds4 := updatedDateStats task_stack leaf
          ((assocLookup stats1.tasks_by_date d).getD emptyDateStats)
        { tasks_total := stats1.tasks_total + 1,
          tasks_completed := stats1.tasks_completed + completedInc leaf,
          tasks_by_date := dictInsert stats1.tasks_by_date d ds4 }

/-- Whether a `process_task` call raises in Python: a truthy date with an
empty ancestor chain hits the unguarded `task_stack[-1]`. -/
def process_task_raises (task_stack : List TaskDict) (date : Option Str) : Bool :=
  match date with
  | none => false
  | some d => !decide (d = []) && task_stack.isEmpty

/-- The mutable state of the `extract_tasks` line loop. -/
structure ParserState where
  task_stack : List TaskDict
  prev_indent_level : Nat
  current_date : Option Str
deriving DecidableEq, Repr

def initParserState : ParserState := ⟨[], 0, none⟩

/-- One iteration of the `extract_tasks` loop: the new state, plus the
argument pair of the `process_task` call the iteration makes, if any.
A heading line resets the stack and indent and re-resolves the date; a
recognized checkbox line updates the stack by the indent rules and calls
`process_task` on a snapshot; a line starting `- [` that
`parse_task_line` rejects does nothing (neither `if` body nor the `else`
of the outer conditional runs); any other line clears the stack and
resets the indent, keeping the date. -/
def parserStep (day_to_date_map : List (Str × Str)) (ps : ParserState) (line : Str) :
    ParserState × Option (List TaskDict × Option Str) :=
  let stripped := strip line
  if ("#### ".toList).isPrefixOf stripped || ("### ".toList).isPrefixOf stripped then
    let heading_text := strip (if ("#### ".toList).isPrefixOf stripped
      then stripped.drop 4 else stripped.drop 3)
    let day_name := titleStr ((splitOnChar ' ' heading_text).headD [])
    ({ task_stack := [], prev_indent_level := 0,
       current_date := assocLookup day_to_date_map day_name }, none)
  else if ("- [".toList).isPrefixOf stripped then
    match parse_task_line stripped with
    | none => (ps, none)
    | some task_info =>
      let indent_level := get_indent_level line
      let stack' :=
        if indent_level > ps.prev_indent_level then ps.task_stack ++ [task_info]
        else if indent_level = ps.prev_indent_level then
          (if ps.task_stack.isEmpty then [task_info] else ps.task_stack.dropLast ++ [task_info])
        else
          let levels_up := ps.prev_indent_level - indent_level
          let popped := ps.task_stack.take (ps.task_stack.length - levels_up)
          (if popped.isEmpty then [task_info] else popped.dropLast ++ [task_info])
      ({ ps with task_stack := stack', prev_indent_level := indent_level },
       some (stack', ps.current_date))
  else
    ({ ps with task_stack := [], prev_indent_level := 0 }, none)

/-- Loop body of `extract_tasks` carrying the statistics. -/
def extractStep (m : List (Str × Str)) (s : ParserState × GlobalStats) (line : Str) :
    ParserState × GlobalStats :=
  match parserStep m s.1 line with
  | (ps', none) => (ps', s.2)
  | (ps', some c) => (ps', process_task c.1 c.2 s.2)

/-- Model of `task_parser.extract_tasks`. -/
def extract_tasks (content : Str) (day_to_date_map : List (Str × Str))
    (stats : GlobalStats) : GlobalStats :=
  ((splitlines content).foldl (extractStep day_to_date_map) (initParserState, stats)).2

/-- Loop body of `extract_tasks` recording the `process_task` calls made. -/
def callsStep (m : List (Str × Str)) (s : ParserState × List (List TaskDict × Option Str))
    (line : Str) : ParserState × List (List TaskDict × Option Str) :=
  match parserStep m s.1 line with
  | (ps', none) => (ps', s.2)
  | (ps', some c) => (ps', s.2 ++ [c])

/-- The sequence of `(ancestor chain, date)` arguments `extract_tasks`
passes to `process_task`, in call order. -/
def extractCalls (m : List (Str × Str)) (lines : List Str) : List (List TaskDict × Option Str) :=
  (lines.foldl (callsStep m) (initParserState, [])).2

/-- Workout list recorded for date `d`. -/
def workoutsAt (s : GlobalStats) (d : Str) : List (Str × Str) :=
  ((assocLookup s.tasks_by_date d).getD emptyDateStats).workouts

/-- Status records recorded for habit phrase `h` on date `d`. -/
def habitsAt (s : GlobalStats) (d h : Str) : List Str :=
  (assocLookup ((assocLookup s.tasks_by_date d).getD emptyDateStats).habits h).getD []

/-! ## Spec-side definitions and concrete inputs used by the claims -/

/-- Lines after the first line whose trimmed form is `## Tags`, if any. -/
def afterFirstTags : List Str → Option (List Str)
  | [] => none
  | l :: rest => if strip l = "## Tags".toList then some rest else afterFirstTags rest

/-- The Tag Date Extractor as claim C6 words it: only the single line
immediately following the first `## Tags` line is inspected.
Modelled from the spec for the refinement comparison with
`extract_date_from_tags`. -/
def specTagDateC6 (content : Str) : Option Str :=
  match afterFirstTags (splitlines content) with
  | none => none
  | some [] => none
  | some (l :: _) => find_tag_date l

/-- What `extract_date_from_tags` actually inspects: the first line after
the first `## Tags` heading whose own trimmed form is not `## Tags`. -/
def amendedTagDate (content : Str) : Option Str :=
  match afterFirstTags (splitlines content) with
  | none => none
  | some rest =>
    match rest.dropWhile (fun l => decide (strip l = "## Tags".toList)) with
    | [] => none
    | l :: _ => find_tag_date l

/-- Input of claim C1: the §8 workout example, placed under a heading so
that a date is active. -/
def c1_content : Str :=
  "### Monday\n- [x] Workout\n  - [ ] Bench press\n  - [x] Squats".toList

def c1_map : List (Str × Str) := [("Monday".toList, "03-04-2024".toList)]

def c1_date : Str := "03-04-2024".toList

/-- Input of claim C5: the banner/heading note of §8. -/
def c5_content : Str :=
  "[[2024 Daily TODO]] - [Week] 10 / [Day] 67\n### Wednesday".toList

/-- Input of the claim C6 counterexample: a duplicated `## Tags` line
followed by a dated tag. -/
def c6_content : Str := "## Tags\n## Tags\n#03-06-2024".toList

/-- Sum of the per-date `tasks_total` counters. -/
def sumTotals (l : List (Str × DateStats)) : Nat :=
  (l.map (fun p => p.2.tasks_total)).sum

/-- The invariant of claim C7. -/
def StatsInv (s : GlobalStats) : Prop :=
  (∀ p ∈ s.tasks_by_date,
      0 ≤ p.2.tasks_completed ∧ p.2.tasks_completed ≤ p.2.tasks_total)
  ∧ sumTotals s.tasks_by_date = s.tasks_total

/-- Strengthened induction invariant: the per-date keys stay distinct. -/
def StatsInvFull (s : GlobalStats) : Prop :=
  StatsInv s ∧ (s.tasks_by_date.map Prod.fst).Nodup

/-- Fold a sequence of aggregator calls into the statistics. -/
def applyCalls (calls : List (List TaskDict × Option Str)) (s : GlobalStats) : GlobalStats :=
  calls.foldl (fun st c => process_task c.1 c.2 st) s

/-! ## Lookup lemmas for the association-list model of Python dicts -/

theorem assocLookup_nil {α : Type} (k : Str) : assocLookup ([] : List (Str × α)) k = none := rfl

theorem assocLookup_cons {α : Type} (a : Str) (b : α) (m : List (Str × α)) (k : Str) :
    assocLookup ((a, b) :: m) k = if a = k then some b else assocLookup m k := by
  simp only [assocLookup, List.find?]
  by_cases h : a = k <;> simp [h]

theorem assocLookup_append_some {α : Type} {m₁ : List (Str × α)} {k : Str} {v : α}
    (m₂ : List (Str × α)) (h : assocLookup m₁ k = some v) :
    assocLookup (m₁ ++ m₂) k = some v := by
  induction m₁ with
  | nil => simp [assocLookup_nil] at h
  | cons p m ih =>
    obtain ⟨a, b⟩ := p
    rw [List.cons_append, assocLookup_cons]
    rw [assocLookup_cons] at h
    by_cases hak : a = k
    · simpa [hak] using h
    · simp only [hak, if_false] at h ⊢
      exact ih h

theorem assocLookup_append_none {α : Type} {m₁ : List (Str × α)} {k : Str}
    (m₂ : List (Str × α)) (h : assocLookup m₁ k = none) :
    assocLookup (m₁ ++ m₂) k = assocLookup m₂ k := by
  induction m₁ with
  | nil => simp
  | cons p m ih =>
    obtain ⟨a, b⟩ := p
    rw [List.cons_append, assocLookup_cons]
    rw [assocLookup_cons] at h
    by_cases hak : a = k
    · simp [hak] at h
    · simp only [hak, if_false] at h ⊢
      exact ih h

theorem assocLookup_mem {α : Type} {m : List (Str × α)} {k : Str} {v : α}
    (h : assocLookup m k = some v) : (k, v) ∈ m := by
  induction m with
  | nil => simp [assocLookup_nil] at h
  | cons p m ih =>
    obtain ⟨a, b⟩ := p
    rw [assocLookup_cons] at h
    by_cases hak : a = k
    · subst hak
      simp only [if_pos rfl] at h
      obtain rfl : b = v := Option.some.inj h
      exact List.mem_cons_self _ _
    · simp only [hak, if_false] at h
      exact List.mem_cons_of_mem _ (ih h)

theorem assocLookup_none_iff {α : Type} (m : List (Str × α)) (k : Str) :
    assocLookup m k = none ↔ k ∉ m.map Prod.fst := by
  induction m with
  | nil => simp [assocLookup_nil]
  | cons p m ih =>
    obtain ⟨a, b⟩ := p
    rw [assocLookup_cons]
    by_cases hak : a = k
    · subst hak
      simp only [if_pos rfl, List.map_cons, List.mem_cons]
      constructor
      · intro hc
        exact Option.noConfusion hc
      · intro hmem
        exact (hmem (Or.inl trivial)).elim
    · simp only [hak, if_false, List.map_cons, List.mem_cons]
      rw [ih]
      constructor
      · intro hni hor
        rcases hor with hka | hin
        · exact hak hka.symm
        · exact hni hin
      · intro hni hin
        exact hni (Or.inr hin)

/-- Lookup after replacing the value of every entry keyed `h`. -/
theorem assocLookup_map_entry {α : Type} (m : List (Str × α)) (h k : Str) (f : α → α) :
    assocLookup (m.map (fun p => if p.1 = h then (p.1, f p.2) else p)) k
      = if k = h then (assocLookup m k).map f else assocLookup m k := by
  induction m with
  | nil => by_cases hk : k = h <;> simp [assocLookup_nil, hk]
  | cons p m ih =>
    obtain ⟨a, b⟩ := p
    simp only [List.map_cons]
    by_cases hah : a = h
    · subst hah
      by_cases hk : k = a
      · simp [assocLookup_cons, hk]
      · have hak : ¬ a = k := fun hc => hk hc.symm
        simp [assocLookup_cons, hk, hak, ih]
    · by_cases hk : k = h
      · subst hk
        have hak : ¬ a = k := fun hc => hah hc
        simp [hah, assocLookup_cons, hak, ih]
      · by_cases hak : a = k <;> simp [hah, hk, assocLookup_cons, hak, ih]

theorem assocLookup_dictInsert_self {α : Type} (m : List (Str × α)) (k : Str) (v : α) :
    assocLookup (dictInsert m k v) k = some v := by
  unfold dictInsert
  by_cases hp : (assocLookup m k).isSome
  · obtain ⟨w, hw⟩ := Option.isSome_iff_exists.mp hp
    have hme := assocLookup_map_entry m k k (fun _ => v)
    rw [if_pos hp, hme, hw]
    simp
  · have hnone : assocLookup m k = none := Option.not_isSome_iff_eq_none.mp hp
    rw [if_neg hp, assocLookup_append_none _ hnone, assocLookup_cons]
    simp

theorem assocLookup_dictInsert_ne {α : Type} (m : List (Str × α)) (k k' : Str) (v : α)
    (hne : k' ≠ k) : assocLookup (dictInsert m k v) k' = assocLookup m k' := by
  unfold dictInsert
  by_cases hp : (assocLookup m k).isSome
  · have hme := assocLookup_map_entry m k k' (fun _ => v)
    simp only [if_neg hne] at hme
    rw [if_pos hp, hme]
  · rw [if_neg hp]
    by_cases hs : (assocLookup m k').isSome
    · obtain ⟨w, hw⟩ := Option.isSome_iff_exists.mp hs
      rw [assocLookup_append_some _ hw, hw]
    · have hnone : assocLookup m k' = none := Option.not_isSome_iff_eq_none.mp hs
      rw [assocLookup_append_none _ hnone, hnone, assocLookup_cons]
      have hkk : ¬ k = k' := fun hc => hne hc.symm
      simp [hkk, assocLookup_nil]

/-! ## Lemmas about the habit loop and the per-date update -/

theorem habitsAdd_lookup_self (m : List (Str × List Str)) (h st : Str) :
    assocLookup (habitsAdd m h st) h = some ((assocLookup m h).getD [] ++ [st]) := by
  unfold habitsAdd
  by_cases hp : (assocLookup m h).isSome
  · obtain ⟨w, hw⟩ := Option.isSome_iff_exists.mp hp
    have hme := assocLookup_map_entry m h h (fun l => l ++ [st])
    rw [if_pos hp, hme, hw]
    simp [hw]
  · have hnone : assocLookup m h = none := Option.not_isSome_iff_eq_none.mp hp
    rw [if_neg hp, assocLookup_append_none _ hnone, assocLookup_cons, hnone]
    simp

theorem habitsAdd_lookup_ne (m : List (Str × List Str)) (h st k : Str) (hne : k ≠ h) :
    assocLookup (habitsAdd m h st) k = assocLookup m k := by
  unfold habitsAdd
  by_cases hp : (assocLookup m h).isSome
  · have hme := assocLookup_map_entry m h k (fun l => l ++ [st])
    rw [if_pos hp, hme, if_neg hne]
  · have hnone : assocLookup m h = none := Option.not_isSome_iff_eq_none.mp hp
    rw [if_neg hp]
    by_cases hs : (assocLookup m k).isSome
    · obtain ⟨w, hw⟩ := Option.isSome_iff_exists.mp hs
      rw [assocLookup_append_some _ hw, hw]
    · have hkn : assocLookup m k = none := Option.not_isSome_iff_eq_none.mp hs
      rw [assocLookup_append_none _ hkn, hkn, assocLookup_cons]
      have hhk : ¬ h = k := fun hc => hne hc.symm
      simp [hhk, assocLookup_nil]

theorem habitFold_cons (lt st x : Str) (xs : List Str) (m : List (Str × List Str)) :
    habitFold lt st (x :: xs) m
      = habitFold lt st xs (if isSubstrOf x lt then habitsAdd m x st else m) := rfl

theorem habitFold_lookup_not_mem (lt st : Str) (l : List Str) (m : List (Str × List Str))
    (h : Str) (hnm : h ∉ l) :
    assocLookup (habitFold lt st l m) h = assocLookup m h := by
  induction l generalizing m with
  | nil => rfl
  | cons x xs ih =>
    rw [habitFold_cons]
    have hx : h ≠ x := fun hc => hnm (hc ▸ List.mem_cons_self x xs)
    have hxs : h ∉ xs := fun hc => hnm (List.mem_cons_of_mem x hc)
    rw [ih _ hxs]
    by_cases hm : isSubstrOf x lt
    · rw [if_pos hm, habitsAdd_lookup_ne _ _ _ _ hx]
    · rw [if_neg hm]

theorem habitFold_getD (lt st : Str) (l : List Str) (m : List (Str × List Str)) (h : Str)
    (hmem : h ∈ l) (hnd : l.Nodup) :
    (assocLookup (habitFold lt st l m) h).getD []
      = (assocLookup m h).getD [] ++ (if isSubstrOf h lt then [st] else []) := by
  induction l generalizing m with
  | nil => cases hmem
  | cons x xs ih =>
    rw [habitFold_cons]
    rcases List.mem_cons.mp hmem with rfl | hin
    · have hnx : h ∉ xs := (List.nodup_cons.mp hnd).1
      rw [habitFold_lookup_not_mem _ _ _ _ _ hnx]
      by_cases hm : isSubstrOf h lt
      · rw [if_pos hm, if_pos hm, habitsAdd_lookup_self]
        simp
      · rw [if_neg hm, if_neg hm, List.append_nil]
    · have hx : h ≠ x := by
        rintro rfl
        exact (List.nodup_cons.mp hnd).1 hin
      rw [ih _ hin (List.nodup_cons.mp hnd).2]
      by_cases hm : isSubstrOf x lt
      · rw [if_pos hm, habitsAdd_lookup_ne _ _ _ _ hx]
      · rw [if_neg hm]

theorem updatedDateStats_tasks_total (ts : List TaskDict) (leaf : TaskDict) (ds : DateStats) :
    (updatedDateStats ts leaf ds).tasks_total = ds.tasks_total + 1 := by
  simp only [updatedDateStats]
  split <;> rfl

theorem updatedDateStats_tasks_completed (ts : List TaskDict) (leaf : TaskDict) (ds : DateStats) :
    (updatedDateStats ts leaf ds).tasks_completed = ds.tasks_completed + completedInc leaf := by
  simp only [updatedDateStats]
  split <;> rfl

theorem updatedDateStats_habits (ts : List TaskDict) (leaf : TaskDict) (ds : DateStats) :
    (updatedDateStats ts leaf ds).habits
      = habitFold (lowerStr leaf.text) leaf.status habits_list ds.habits := by
  simp only [updatedDateStats]
  split <;> rfl

theorem updatedDateStats_workouts (ts : List TaskDict) (leaf : TaskDict) (ds : DateStats) :
    (updatedDateStats ts leaf ds).workouts
      = ds.workouts ++ (if workoutTrigger (lowerStr leaf.text) then
          (if ts.length > 1 then (ts.drop 1).map (fun t => (t.text, t.status))
           else [(lowerStr leaf.text, leaf.status)])
        else []) := by
  simp only [updatedDateStats]
  split
  · rfl
  · simp

theorem ensureDate_lookup (d : Str) (stats : GlobalStats) :
    assocLookup (ensureDate d stats).tasks_by_date d
      = some ((assocLookup stats.tasks_by_date d).getD emptyDateStats) := by
  unfold ensureDate
  by_cases hp : (assocLookup stats.tasks_by_date d).isSome
  · obtain ⟨w, hw⟩ := Option.isSome_iff_exists.mp hp
    rw [if_pos hp, hw]
    simp [hw]
  · have hnone : assocLookup stats.tasks_by_date d = none := Option.not_isSome_iff_eq_none.mp hp
    rw [if_neg hp]
    show assocLookup (stats.tasks_by_date ++ [(d, emptyDateStats)]) d = _
    rw [assocLookup_append_none _ hnone, assocLookup_cons, hnone]
    simp

theorem process_task_eq (stack : List TaskDict) (leaf : TaskDict) (d : Str)
    (stats : GlobalStats) (hl : stack.getLast? = some leaf) (hd : d ≠ []) :
    process_task stack (some d) stats
      = { tasks_total := (ensureDate d stats).tasks_total + 1,
          tasks_completed := (ensureDate d stats).tasks_completed + completedInc leaf,
          tasks_by_date := dictInsert (ensureDate d stats).tasks_by_date d
            (updatedDateStats stack leaf
              ((assocLookup (ensureDate d stats).tasks_by_date d).getD emptyDateStats)) } := by
  simp only [process_task, hl, if_neg hd]

theorem habits_list_nodup : habits_list.Nodup := by decide

/-- C8 — for an aggregator call with a resolvable date and a non-empty
chain, each hardcoded habit phrase contained in the leaf's lower-cased
text gets exactly one `{status}` record appended under that literal
phrase, and phrases not contained leave their lists unchanged; a task
containing several phrases is recorded under each. -/
theorem claimC8_habit_classification (stats : GlobalStats) (stack : List TaskDict)
    (leaf : TaskDict) (d h : Str) (hl : stack.getLast? = some leaf) (hd : d ≠ [])
    (hh : h ∈ habits_list) :
    habitsAt (process_task stack (some d) stats) d h
      = habitsAt stats d h
        ++ (if isSubstrOf h (lowerStr leaf.text) then [leaf.status] else []) := by
  rw [process_task_eq stack leaf d stats hl hd]
  simp only [habitsAt]
  rw [assocLookup_dictInsert_self]
  simp only [Option.getD_some]
  rw [updatedDateStats_habits, ensureDate_lookup]
  simp only [Option.getD_some]
  rw [habitFold_getD _ _ _ _ _ hh habits_list_nodup]

/-- Witness for C8: a single completed task whose text contains two habit
phrases is recorded under both of them. -/
theorem claimC8_witness :
    ([⟨"completed".toList, "study hebrew and massage scalp".toList⟩] : List TaskDict).getLast?
        = some ⟨"completed".toList, "study hebrew and massage scalp".toList⟩
    ∧ ("d".toList : Str) ≠ []
    ∧ "study hebrew".toList ∈ habits_list
    ∧ habitsAt (process_task [⟨"completed".toList, "study hebrew and massage scalp".toList⟩]
          (some "d".toList) freshStats) "d".toList "study hebrew".toList
        = habitsAt freshStats "d".toList "study hebrew".toList
          ++ (if isSubstrOf "study hebrew".toList
                (lowerStr "study hebrew and massage scalp".toList)
              then ["completed".toList] else [])
    ∧ habitsAt (process_task [⟨"completed".toList, "study hebrew and massage scalp".toList⟩]
          (some "d".toList) freshStats) "d".toList "massage scalp".toList
        = habitsAt freshStats "d".toList "massage scalp".toList
          ++ (if isSubstrOf "massage scalp".toList
                (lowerStr "study hebrew and massage scalp".toList)
              then ["completed".toList] else []) :=
  ⟨by decide, by decide, by decide,
   claimC8_habit_classification freshStats
     [⟨"completed".toList, "study hebrew and massage scalp".toList⟩]
     ⟨"completed".toList, "study hebrew and massage scalp".toList⟩
     "d".toList "study hebrew".toList (by decide) (by decide) (by decide),
   claimC8_habit_classification freshStats
     [⟨"completed".toList, "study hebrew and massage scalp".toList⟩]
     ⟨"completed".toList, "study hebrew and massage scalp".toList⟩
     "d".toList "massage scalp".toList (by decide) (by decide) (by decide)⟩

/-- C9 — when the workout trigger fires on the leaf, a chain of length
one records the lower-cased leaf text, while a longer chain records each
sub-task after the root with its original casing. -/
theorem claimC9_workout_casing (stats : GlobalStats) (stack : List TaskDict)
    (leaf : TaskDict) (d : Str) (hl : stack.getLast? = some leaf) (hd : d ≠ [])
    (ht : workoutTrigger (lowerStr leaf.text) = true) :
    workoutsAt (process_task stack (some d) stats) d
      = workoutsAt stats d
        ++ (if stack.length > 1 then (stack.drop 1).map (fun t => (t.text, t.status))
            else [(lowerStr leaf.text, leaf.status)]) := by
  rw [process_task_eq stack leaf d stats hl hd]
  simp only [workoutsAt]
  rw [assocLookup_dictInsert_self]
  simp only [Option.getD_some]
  rw [updatedDateStats_workouts, ensureDate_lookup]
  simp only [Option.getD_some, ht, if_true]

/-- Witness for C9: a singleton `GYM Workout` chain is stored lower-cased,
while a two-task chain stores the sub-task `Seated Workout` verbatim. -/
theorem claimC9_witness :
    ([⟨"completed".toList, "GYM Workout".toList⟩] : List TaskDict).getLast?
        = some ⟨"completed".toList, "GYM Workout".toList⟩
    ∧ workoutTrigger (lowerStr "GYM Workout".toList) = true
    ∧ workoutsAt (process_task [⟨"completed".toList, "GYM Workout".toList⟩]
          (some "d".toList) freshStats) "d".toList
        = workoutsAt freshStats "d".toList
          ++ (if ([⟨"completed".toList, "GYM Workout".toList⟩] : List TaskDict).length > 1
              then (([⟨"completed".toList, "GYM Workout".toList⟩] : List TaskDict).drop 1).map
                (fun t => (t.text, t.status))
              else [(lowerStr "GYM Workout".toList, "completed".toList)])
    ∧ workoutsAt (process_task
          [⟨"completed".toList, "A".toList⟩, ⟨"not completed".toList, "Seated Workout".toList⟩]
          (some "d".toList) freshStats) "d".toList
        = workoutsAt freshStats "d".toList
          ++ (if ([⟨"completed".toList, "A".toList⟩,
                   ⟨"not completed".toList, "Seated Workout".toList⟩] : List TaskDict).length > 1
              then (([⟨"completed".toList, "A".toList⟩,
                      ⟨"not completed".toList, "Seated Workout".toList⟩] : List TaskDict).drop 1).map
                (fun t => (t.text, t.status))
              else [(lowerStr "Seated Workout".toList, "not completed".toList)]) :=
  ⟨by decide, by decide,
   claimC9_workout_casing freshStats [⟨"completed".toList, "GYM Workout".toList⟩]
     ⟨"completed".toList, "GYM Workout".toList⟩ "d".toList
     (by decide) (by decide) (by decide),
   claimC9_workout_casing freshStats
     [⟨"completed".toList, "A".toList⟩, ⟨"not completed".toList, "Seated Workout".toList⟩]
     ⟨"not completed".toList, "Seated Workout".toList⟩ "d".toList
     (by decide) (by decide) (by decide)⟩

/-! ## Invariant of the statistics structure (claim C7) -/

theorem sumTotals_nil : sumTotals [] = 0 := rfl

theorem sumTotals_cons (a : Str) (b : DateStats) (m : List (Str × DateStats)) :
    sumTotals ((a, b) :: m) = b.tasks_total + sumTotals m := by
  simp [sumTotals]

theorem sumTotals_append (a b : List (Str × DateStats)) :
    sumTotals (a ++ b) = sumTotals a + sumTotals b := by
  simp [sumTotals]

theorem fst_map_entry {α : Type} (m : List (Str × α)) (d : Str) (v : α) :
    (m.map (fun p => if p.1 = d then (p.1, v) else p)).map Prod.fst = m.map Prod.fst := by
  rw [List.map_map]
  apply List.map_congr_left
  intro p _
  by_cases hp : p.1 = d <;> simp [hp]

theorem mem_map_entry {α : Type} {m : List (Str × α)} {d : Str} {v : α} {p : Str × α}
    (hp : p ∈ m.map (fun q => if q.1 = d then (q.1, v) else q)) :
    p.2 = v ∨ p ∈ m := by
  obtain ⟨q, hq, rfl⟩ := List.mem_map.mp hp
  by_cases hqd : q.1 = d
  · left
    simp [hqd]
  · right
    simpa [hqd] using hq

theorem sumTotals_map_entry (m : List (Str × DateStats)) (d : Str) (ds v : DateStats)
    (hnd : (m.map Prod.fst).Nodup) (hlk : assocLookup m d = some ds) :
    sumTotals (m.map (fun p => if p.1 = d then (p.1, v) else p)) + ds.tasks_total
      = sumTotals m + v.tasks_total := by
  induction m with
  | nil => simp [assocLookup_nil] at hlk
  | cons p m ih =>
    obtain ⟨a, b⟩ := p
    simp only [List.map_cons, List.nodup_cons] at hnd
    by_cases had : a = d
    · subst had
      have hbds : b = ds := by
        rw [assocLookup_cons] at hlk
        simpa using hlk
      subst hbds
      have hm : List.map (fun p => if p.1 = a then (p.1, v) else p) m = m := by
        have hcg : List.map (fun p => if p.1 = a then (p.1, v) else p) m = m.map id :=
          List.map_congr_left (fun q hq => by
            have hq1 : q.1 ≠ a := fun hc => hnd.1 (hc ▸ List.mem_map_of_mem Prod.fst hq)
            simp [hq1])
        rw [hcg, List.map_id]
      have hmap : List.map (fun p => if p.1 = a then (p.1, v) else p) ((a, b) :: m)
          = (a, v) :: m := by
        simp [hm]
      rw [hmap, sumTotals_cons, sumTotals_cons]
      omega
    · rw [assocLookup_cons] at hlk
      have hbd : ¬ (a, b).1 = d := had
      simp only [had, if_false] at hlk
      simp only [List.map_cons, if_neg hbd, sumTotals_cons]
      have := ih hnd.2 hlk
      omega

theorem completedInc_le_one (leaf : TaskDict) : completedInc leaf ≤ 1 := by
  unfold completedInc
  split <;> omega

theorem ensureDate_tasks_total (d : Str) (s : GlobalStats) :
    (ensureDate d s).tasks_total = s.tasks_total := by
  unfold ensureDate
  split <;> rfl

theorem ensureDate_invfull (d : Str) (s : GlobalStats) (h : StatsInvFull s) :
    StatsInvFull (ensureDate d s) := by
  unfold ensureDate
  split
  · exact h
  · rename_i hp
    have hnone : assocLookup s.tasks_by_date d = none := Option.not_isSome_iff_eq_none.mp hp
    obtain ⟨⟨hent, hsum⟩, hnd⟩ := h
    refine ⟨⟨?_, ?_⟩, ?_⟩
    · intro p hp2
      rcases List.mem_append.mp hp2 with hin | hin
      · exact hent p hin
      · obtain rfl : p = (d, emptyDateStats) := List.mem_singleton.mp hin
        exact ⟨Nat.zero_le _, Nat.le_refl _⟩
    · rw [sumTotals_append, sumTotals_cons, sumTotals_nil]
      simpa [emptyDateStats] using hsum
    · rw [List.map_append]
      have hdout : d ∉ s.tasks_by_date.map Prod.fst := (assocLookup_none_iff _ _).mp hnone
      simp [List.nodup_append, hnd, hdout]

theorem process_task_invfull (stack : List TaskDict) (date : Option Str) (s : GlobalStats)
    (h : StatsInvFull s) : StatsInvFull (process_task stack date s) := by
  match date with
  | none => exact h
  | some d =>
    by_cases hd : d = []
    · subst hd
      simp only [process_task, if_pos rfl]
      exact h
    · have h1 := ensureDate_invfull d s h
      cases hls : stack.getLast? with
      | none =>
        simp only [process_task, if_neg hd, hls]
        exact h1
      | some leaf =>
        rw [process_task_eq stack leaf d s hls hd]
        have hlk := ensureDate_lookup d s
        set T := (ensureDate d s).tasks_by_date with hT
        set dsv := (assocLookup s.tasks_by_date d).getD emptyDateStats with hdsv
        set ds4 := updatedDateStats stack leaf ((assocLookup T d).getD emptyDateStats) with hds4
        have hds4t : ds4.tasks_total = dsv.tasks_total + 1 := by
          rw [hds4, hlk, Option.getD_some, updatedDateStats_tasks_total]
        have hds4c : ds4.tasks_completed = dsv.tasks_completed + completedInc leaf := by
          rw [hds4, hlk, Option.getD_some, updatedDateStats_tasks_completed]
        have hdsvmem : (d, dsv) ∈ T := assocLookup_mem hlk
        have hdsvb : dsv.tasks_completed ≤ dsv.tasks_total := (h1.1.1 (d, dsv) hdsvmem).2
        have hIns : dictInsert T d ds4 = T.map (fun p => if p.1 = d then (p.1, ds4) else p) := by
          unfold dictInsert
          rw [if_pos (by rw [hlk]; rfl)]
        obtain ⟨⟨hent1, hsum1⟩, hnd1⟩ := h1
        refine ⟨⟨?_, ?_⟩, ?_⟩
        · intro p hp2
          simp only [hIns] at hp2
          rcases mem_map_entry hp2 with hv | hin
          · rw [hv, hds4t, hds4c]
            have := completedInc_le_one leaf
            exact ⟨Nat.zero_le _, by omega⟩
          · exact hent1 p hin
        · simp only [hIns]
          have hsm := sumTotals_map_entry T d dsv ds4 hnd1 hlk
          rw [← hT] at hsum1
          rw [ensureDate_tasks_total] at hsum1 ⊢
          omega
        · simp only [hIns, fst_map_entry]
          exact hnd1

theorem applyCalls_cons (c : List TaskDict × Option Str) (cs : List (List TaskDict × Option Str))
    (s : GlobalStats) : applyCalls (c :: cs) s = applyCalls cs (process_task c.1 c.2 s) := rfl

theorem applyCalls_invfull (calls : List (List TaskDict × Option Str)) (s : GlobalStats)
    (h : StatsInvFull s) : StatsInvFull (applyCalls calls s) := by
  induction calls generalizing s with
  | nil => exact h
  | cons c cs ih => exact ih _ (process_task_invfull c.1 c.2 s h)

theorem freshStats_invfull : StatsInvFull freshStats := by
  refine ⟨⟨?_, rfl⟩, List.nodup_nil⟩
  intro p hp
  cases hp

/-- C7 — starting from a fresh `GlobalStats`, after any sequence of
aggregator calls every per-date entry satisfies
`0 ≤ tasks_completed ≤ tasks_total` and the per-date totals sum to the
global total. -/
theorem claimC7_global_invariant (calls : List (List TaskDict × Option Str)) :
    StatsInv (applyCalls calls freshStats) :=
  (applyCalls_invfull calls freshStats freshStats_invfull).1

/-! ## Lemmas about the line-loop state machine (claims C3, C4, C10) -/

theorem prefix_mono {p q s : Str} (hpq : p <+: q) (h : q.isPrefixOf s = true) :
    p.isPrefixOf s = true := by
  rw [List.isPrefixOf_iff_prefix] at h ⊢
  exact hpq.trans h

theorem parse_some_dash {line : Str} {t : TaskDict} (h : parse_task_line line = some t) :
    ("- [".toList).isPrefixOf line = true := by
  unfold parse_task_line at h
  by_cases hp : (("- [x]".toList).isPrefixOf line || ("- [ ]".toList).isPrefixOf line) = true
  · rw [Bool.or_eq_true] at hp
    rcases hp with h1 | h1
    · exact prefix_mono ⟨['x', ']'], by decide⟩ h1
    · exact prefix_mono ⟨[' ', ']'], by decide⟩ h1
  · rw [if_neg hp] at h
    cases h

theorem dash_not_heading {s : Str} (h : ("- [".toList).isPrefixOf s = true) :
    (("#### ".toList).isPrefixOf s || ("### ".toList).isPrefixOf s) = false := by
  have e1 : "- [".toList = ['-', ' ', '['] := rfl
  have e2 : "#### ".toList = ['#', '#', '#', '#', ' '] := rfl
  have e3 : "### ".toList = ['#', '#', '#', ' '] := rfl
  rw [e1] at h
  rw [e2, e3]
  cases s with
  | nil => exact absurd h (by decide)
  | cons c t =>
    rw [List.isPrefixOf_cons₂, Bool.and_eq_true] at h
    obtain ⟨h1, -⟩ := h
    have hc : c = '-' := (beq_iff_eq.mp h1).symm
    subst hc
    rw [List.isPrefixOf_cons₂, List.isPrefixOf_cons₂]
    have hne : ('#' == '-') = false := by decide
    rw [hne]
    rfl

/-- C3 (amended) — a line whose trimmed form starts `- [` but which
`parse_task_line` rejects leaves the parser state entirely unchanged and
makes no aggregator call: it is not treated as an "other line". -/
theorem claimC3_amended_malformed_noop (m : List (Str × Str)) (ps : ParserState) (line : Str)
    (hpre : ("- [".toList).isPrefixOf (strip line) = true)
    (hnone : parse_task_line (strip line) = none) :
    parserStep m ps line = (ps, none) := by
  have hh := dash_not_heading hpre
  simp only [parserStep, hh, hpre, hnone]
  rfl

/-- Witness for the amended C3 at a concrete malformed checkbox line. -/
theorem claimC3_amended_witness :
    ("- [".toList).isPrefixOf (strip "- [y] b".toList) = true
    ∧ parse_task_line (strip "- [y] b".toList) = none
    ∧ parserStep [] ⟨[⟨"completed".toList, "a".toList⟩], 2, none⟩ "- [y] b".toList
        = (⟨[⟨"completed".toList, "a".toList⟩], 2, none⟩, none) :=
  ⟨by decide, by decide,
   claimC3_amended_malformed_noop [] ⟨[⟨"completed".toList, "a".toList⟩], 2, none⟩
     "- [y] b".toList (by decide) (by decide)⟩

/-- C3 counterexample — on the malformed checkbox line `- [y] b` with a
non-empty stack and a non-zero previous indent, the parser does NOT reset
`prev_indent_level` to 0 and does NOT clear the stack, contradicting the
claim that such a line is treated as an "other line" (transition 3). -/
theorem claimC3_counterexample :
    ¬ ((parserStep [] ⟨[⟨"completed".toList, "a".toList⟩], 2, none⟩ "- [y] b".toList).1.task_stack
          = []
       ∧ (parserStep [] ⟨[⟨"completed".toList, "a".toList⟩], 2, none⟩
            "- [y] b".toList).1.prev_indent_level = 0) := by
  decide

/-- C4 — when a recognized task line's indent drops by more than the
current stack depth, the stack update pops everything and pushes the new
task as sole root; the parser is total, so no exception can occur. -/
theorem claimC4_indent_underflow (m : List (Str × Str)) (ps : ParserState) (line : Str)
    (t : TaskDict) (hp : parse_task_line (strip line) = some t)
    (hlt : get_indent_level line < ps.prev_indent_level)
    (hdeep : ps.task_stack.length < ps.prev_indent_level - get_indent_level line) :
    (parserStep m ps line).1.task_stack = [t]
    ∧ (parserStep m ps line).2 = some ([t], ps.current_date) := by
  have hpre := parse_some_dash hp
  have hh := dash_not_heading hpre
  have h1 : ¬ (get_indent_level line > ps.prev_indent_level) := by omega
  have h2 : ¬ (get_indent_level line = ps.prev_indent_level) := by omega
  have h3 : ps.task_stack.length - (ps.prev_indent_level - get_indent_level line) = 0 := by
    omega
  simp only [parserStep, hh, hpre, hp, h1, h2, h3]
  simp

/-- Witness for C4: indent falls from 5 to 0 over a stack of depth 1. -/
theorem claimC4_witness :
    parse_task_line (strip "- [x] b".toList) = some ⟨"completed".toList, "b".toList⟩
    ∧ get_indent_level "- [x] b".toList
        < (⟨[⟨"completed".toList, "a".toList⟩], 5, some "d".toList⟩ : ParserState).prev_indent_level
    ∧ (⟨[⟨"completed".toList, "a".toList⟩], 5, some "d".toList⟩ : ParserState).task_stack.length
        < (⟨[⟨"completed".toList, "a".toList⟩], 5, some "d".toList⟩ : ParserState).prev_indent_level
          - get_indent_level "- [x] b".toList
    ∧ (parserStep [] ⟨[⟨"completed".toList, "a".toList⟩], 5, some "d".toList⟩
         "- [x] b".toList).1.task_stack = [⟨"completed".toList, "b".toList⟩]
    ∧ (parserStep [] ⟨[⟨"completed".toList, "a".toList⟩], 5, some "d".toList⟩
         "- [x] b".toList).2
        = some ([⟨"completed".toList, "b".toList⟩], some "d".toList) := by
  refine ⟨by decide, by decide, by decide, ?_⟩
  exact claimC4_indent_underflow [] ⟨[⟨"completed".toList, "a".toList⟩], 5, some "d".toList⟩
    "- [x] b".toList ⟨"completed".toList, "b".toList⟩ (by decide) (by decide) (by decide)

theorem parserStep_call_nonempty (m : List (Str × Str)) (ps : ParserState) (line : Str)
    (c : List TaskDict × Option Str) (h : (parserStep m ps line).2 = some c) :
    c.1 ≠ [] := by
  unfold parserStep at h
  by_cases hh : (("#### ".toList).isPrefixOf (strip line)
      || ("### ".toList).isPrefixOf (strip line)) = true
  · rw [if_pos hh] at h
    cases h
  · rw [if_neg hh] at h
    by_cases hb : (("- [".toList).isPrefixOf (strip line)) = true
    · rw [if_pos hb] at h
      cases hp : parse_task_line (strip line) with
      | none =>
        rw [hp] at h
        cases h
      | some t =>
        rw [hp] at h
        simp only at h
        obtain rfl : c = _ := (Option.some.inj h).symm
        simp only
        split
        · simp
        · split
          · split <;> simp
          · split <;> simp
    · rw [if_neg hb] at h
      cases h

theorem extractCalls_aux (m : List (Str × Str)) (lines : List Str) (ps : ParserState)
    (acc : List (List TaskDict × Option Str)) (hacc : ∀ c ∈ acc, c.1 ≠ []) :
    ∀ c ∈ (lines.foldl (callsStep m) (ps, acc)).2, c.1 ≠ [] := by
  induction lines generalizing ps acc with
  | nil => exact hacc
  | cons l ls ih =>
    rw [List.foldl_cons]
    rcases hstep : parserStep m ps l with ⟨ps', copt⟩
    cases copt with
    | none =>
      have hcs : callsStep m (ps, acc) l = (ps', acc) := by
        simp [callsStep, hstep]
      rw [hcs]
      exact ih _ _ hacc
    | some c0 =>
      have hcs : callsStep m (ps, acc) l = (ps', acc ++ [c0]) := by
        simp [callsStep, hstep]
      rw [hcs]
      apply ih
      intro c hc
      rcases List.mem_append.mp hc with hin | hin
      · exact hacc c hin
      · obtain rfl := List.mem_singleton.mp hin
        exact parserStep_call_nonempty m ps l c (by rw [hstep])

/-- C10 — every `process_task` invocation made by the line loop receives
a non-empty ancestor chain, and hence (by `process_task_raises`) never
hits the unguarded `task_stack[-1]` access that an empty chain with a
truthy date would trip. -/
theorem claimC10_calls_never_raise (m : List (Str × Str)) (lines : List Str)
    (c : List TaskDict × Option Str) (hc : c ∈ extractCalls m lines) :
    c.1 ≠ [] ∧ process_task_raises c.1 c.2 = false := by
  have h1 : c.1 ≠ [] :=
    extractCalls_aux m lines initParserState [] (by intro x hx; cases hx) c hc
  refine ⟨h1, ?_⟩
  obtain ⟨stack, date⟩ := c
  cases date with
  | none => rfl
  | some d =>
    show (!decide (d = []) && stack.isEmpty) = false
    have he : stack.isEmpty = false := by
      cases stack with
      | nil => exact absurd rfl h1
      | cons a t => rfl
    rw [he, Bool.and_false]

/-- Witness for C10 at a two-line note producing one aggregator call. -/
theorem claimC10_witness :
    (([⟨"completed".toList, "a".toList⟩], (none : Option Str))
        ∈ extractCalls [] ["- [x] a".toList])
    ∧ ([⟨"completed".toList, "a".toList⟩] : List TaskDict) ≠ []
    ∧ process_task_raises [⟨"completed".toList, "a".toList⟩] (none : Option Str) = false :=
  ⟨by decide,
   (claimC10_calls_never_raise [] ["- [x] a".toList]
     ([⟨"completed".toList, "a".toList⟩], none) (by decide)).1,
   (claimC10_calls_never_raise [] ["- [x] a".toList]
     ([⟨"completed".toList, "a".toList⟩], none) (by decide)).2⟩

/-- C1 counterexample — for the §8 three-line workout example under an
active date, the recorded workout list is NOT the claimed pair
(`Bench press`, `Squats`); instead an entry derived from the root
`Workout` line itself (lower-cased) appears in the list. -/
theorem claimC1_counterexample :
    workoutsAt (extract_tasks c1_content c1_map freshStats) c1_date
        ≠ [("Bench press".toList, "not completed".toList),
           ("Squats".toList, "completed".toList)]
    ∧ ("workout".toList, "completed".toList)
        ∈ workoutsAt (extract_tasks c1_content c1_map freshStats) c1_date := by
  decide

/-- C1 (amended) — for that input the workout list for the date contains
exactly one entry, the lower-cased root `{type: "workout",
status: Completed}`; the children are counted as tasks but never matched
as workouts, because the trigger is tested on each call's leaf text. -/
theorem claimC1_amended_workout_list :
    workoutsAt (extract_tasks c1_content c1_map freshStats) c1_date
      = [("workout".toList, "completed".toList)] := by
  decide

/-- C5 — in structured mode with year 2024 and day-of-year 67, the §8
banner note with heading `### Wednesday` maps `Wednesday` to exactly
`"03-06-2024"` (one day before day 67, which is Thursday 2024-03-07),
by the Sunday-0 offset arithmetic. -/
theorem claimC5_structured_wednesday :
    build_day_to_date_map (some 2024) (some 67) c5_content none
      = .ok [("Wednesday".toList, "03-06-2024".toList)] := by
  decide

/-- C6 counterexample — with two consecutive `## Tags` lines followed by
`#03-06-2024`, the extractor returns the date from the third line, while
the claim (only the single line immediately following the first `## Tags`
is inspected, cf. `specTagDateC6`) predicts `None`. -/
theorem claimC6_counterexample :
    extract_date_from_tags c6_content = some "03-06-2024".toList
    ∧ specTagDateC6 c6_content = none := by
  decide

theorem tagsLoop_true_eq (ls : List Str) :
    tagsLoop ls true
      = match ls.dropWhile (fun l => decide (strip l = "## Tags".toList)) with
        | [] => none
        | l :: _ => find_tag_date l := by
  induction ls with
  | nil => rfl
  | cons l rest ih =>
    by_cases hl : strip l = ['#', '#', ' ', 'T', 'a', 'g', 's']
    · simp [tagsLoop, hl, ih]
    · simp [tagsLoop, hl]

theorem tagsLoop_false_eq (ls : List Str) :
    tagsLoop ls false
      = match afterFirstTags ls with
        | none => none
        | some rest =>
          match rest.dropWhile (fun l => decide (strip l = "## Tags".toList)) with
          | [] => none
          | l :: _ => find_tag_date l := by
  induction ls with
  | nil => rfl
  | cons l rest ih =>
    by_cases hl : strip l = ['#', '#', ' ', 'T', 'a', 'g', 's']
    · simp [tagsLoop, hl, afterFirstTags, tagsLoop_true_eq rest]
    · simp [tagsLoop, hl, afterFirstTags, ih]

/-- C6 (amended) — the extractor inspects exactly the first line after
the first `## Tags` heading whose own trimmed form is not `## Tags`
(directly repeated `## Tags` lines are skipped, because they re-enter the
heading branch); it returns the first valid dated token of that one line,
unmodified, and `None` otherwise, even if a later line carries one. -/
theorem claimC6_amended_first_non_tags_line (content : Str) :
    extract_date_from_tags content = amendedTagDate content := by
  unfold extract_date_from_tags amendedTagDate
  rw [tagsLoop_false_eq]

/-! ## Totality of fallback mode (claim C2) -/

theorem ite_some_none_eq {c : Prop} [Decidable c] {α : Type} {A B : α}
    (h : (if c then some A else none) = some B) : c ∧ A = B := by
  by_cases hc : c
  · rw [if_pos hc] at h
    exact ⟨hc, Option.some.inj h⟩
  · rw [if_neg hc] at h
    cases h

theorem parseMDY_bounds {f : Str} {y m d : Nat} (h : parseMDY f = some (y, m, d)) :
    1 ≤ d ∧ 1 ≤ toOrdinal y m d := by
  unfold parseMDY at h
  rcases hsp : splitOnChar '-' f with _ | ⟨ms, _ | ⟨ds, _ | ⟨ys, _ | ⟨e, rest⟩⟩⟩⟩ <;>
    rw [hsp] at h
  · cases h
  · cases h
  · cases h
  · obtain ⟨hcond, heq⟩ := ite_some_none_eq h
    simp only [Bool.and_eq_true, decide_eq_true_eq, beq_iff_eq] at hcond
    simp only [Prod.mk.injEq] at heq
    obtain ⟨rfl, rfl, rfl⟩ := heq
    constructor
    · omega
    · unfold toOrdinal
      omega
  · cases h

theorem day_map7_getD_le (dn : Str) : (assocLookup day_map7 dn).getD 0 ≤ 6 := by
  unfold day_map7
  rw [assocLookup_cons, assocLookup_cons, assocLookup_cons, assocLookup_cons,
    assocLookup_cons, assocLookup_cons, assocLookup_cons]
  split_ifs <;> simp [assocLookup_nil]

theorem buildMapLoop_ok (base : Int) (l : List Str) (acc : List (Str × Str))
    (hb1 : 1 ≤ base) (hb2 : base + 6 ≤ (maxOrdinal : Int)) :
    (buildMapLoop base 0 l acc).isOk = true := by
  induction l generalizing acc with
  | nil => rfl
  | cons dn rest ih =>
    have hle : ((assocLookup day_map7 dn).getD 0 : Nat) ≤ 6 := day_map7_getD_le dn
    have hcast : (0 : Int) ≤ (((assocLookup day_map7 dn).getD 0 : Nat) : Int)
        ∧ (((assocLookup day_map7 dn).getD 0 : Nat) : Int) ≤ 6 := by
      constructor
      · exact Int.ofNat_nonneg _
      · exact_mod_cast hle
    have hok : addDaysChecked base ((((assocLookup day_map7 dn).getD 0 : Nat) : Int) - 0)
        = .ok (base + ((((assocLookup day_map7 dn).getD 0 : Nat) : Int) - 0)) := by
      unfold addDaysChecked
      rw [if_pos]
      constructor <;> omega
    rw [buildMapLoop, hok]
    exact ih _

theorem buildFromBase_ok (base : Int) (content : Str)
    (hb1 : 1 ≤ base) (hb2 : base + 6 ≤ (maxOrdinal : Int)) :
    (buildFromBase base 0 content).isOk = true := by
  unfold buildFromBase
  cases hfd : found_days content with
  | nil => rfl
  | cons a l => exact buildMapLoop_ok base (a :: l) [] hb1 hb2

/-- C2 (amended) — fallback mode is total on fallback strings that parse
strictly as `MM-DD-YYYY`, provided the date is at least six days below
the `datetime` upper bound 9999-12-31 (the per-day offsets are 0..6, so
no `OverflowError` can occur): the mapper returns a (possibly empty)
mapping.  Strings valid only as `YYYY-MM-DD` instead raise `ValueError`
from `strptime` (see the counterexample). -/
theorem claimC2_amended_fallback_total (f content : Str) (y m d : Nat)
    (hp : parseMDY f = some (y, m, d))
    (hbound : ((toOrdinal y m d : Nat) : Int) + 6 ≤ (maxOrdinal : Int)) :
    (build_day_to_date_map none none content (some f)).isOk = true := by
  obtain ⟨-, hord⟩ := parseMDY_bounds hp
  have hred : build_day_to_date_map none none content (some f)
      = (if f = [] then Except.ok []
         else match parseMDY f with
           | none => Except.error ()
           | some ymd =>
             buildFromBase ((toOrdinal ymd.1 ymd.2.1 ymd.2.2 : Nat) : Int) 0 content) := rfl
  rw [hred]
  by_cases hf : f = []
  · rw [if_pos hf]
    rfl
  · rw [if_neg hf, hp]
    exact buildFromBase_ok _ content (by exact_mod_cast hord) hbound

/-- Witness for the amended C2 at the fallback string `03-06-2024`. -/
theorem claimC2_amended_witness :
    parseMDY "03-06-2024".toList = some (2024, 3, 6)
    ∧ ((toOrdinal 2024 3 6 : Nat) : Int) + 6 ≤ (maxOrdinal : Int)
    ∧ (build_day_to_date_map none none [] (some "03-06-2024".toList)).isOk = true :=
  ⟨by decide, by decide,
   claimC2_amended_fallback_total "03-06-2024".toList [] 2024 3 6 (by decide) (by decide)⟩

/-- C2 counterexample — `"2024-03-06"` is a valid fallback string by
`is_valid_date` (it parses as `YYYY-MM-DD`), yet fallback mode raises
`ValueError` (modelled `.error`) because the base date is parsed with the
`%m-%d-%Y` format only. -/
theorem claimC2_counterexample :
    is_valid_date "2024-03-06".toList = true
    ∧ build_day_to_date_map none none [] (some "2024-03-06".toList) = .error () := by
  decide
